import Mathlib

/-!
Verification of the robotd worker connection multiplexer and device drivers.

Shallow embedding of `robotd/master.py` (Connection framing, BoardRunner
event loop, broadcast), `robotd/devices_base.py` (Board defaults and the
BoardMeta `board_type_id` derivation) and `robotd/devices.py` (MotorBoard,
GameState).  Python byte strings are modelled as `List Char` (the protocol
is ASCII), JSON values as the inductive `Json` with numbers as exact
rationals, and Python dicts as insertion-ordered association lists.
-/

namespace Robotd

/-- JSON values as produced by Python's `json.loads`: objects are
insertion-ordered key/value lists (a Python dict), numbers are modelled as
exact rationals. -/
inductive Json where
  | null : Json
  | bool (b : Bool) : Json
  | num (q : ℚ) : Json
  | str (s : String) : Json
  | arr (items : List Json) : Json
  | obj (fields : List (String × Json)) : Json

/-- Python exception kinds that the modelled code can raise. -/
inductive PyErr where
  | typeError
  | valueError
  | keyError
  | attributeError
  | jsonDecode
  | connectionRefused
  | runtimeError
deriving DecidableEq

/-- Association-list lookup: Python `d[k]` returning `none` for a KeyError. -/
def alistGet {κ α : Type} [DecidableEq κ] : List (κ × α) → κ → Option α
  | [], _ => none
  | (k', v) :: rest, k => if k' = k then some v else alistGet rest k

/-- Python dict assignment `d[k] = v`: an existing key keeps its position and
gets the new value, a new key is appended. -/
def alistSet {κ α : Type} [DecidableEq κ] : List (κ × α) → κ → α → List (κ × α)
  | [], k, v => [(k, v)]
  | kv :: rest, k, v =>
    if kv.1 = k then (k, v) :: rest else kv :: alistSet rest k v

/-- Python `dict.update(other)`: assign each pair of `other` in order. -/
def dictUpdate (m : List (String × Json)) (other : List (String × Json)) :
    List (String × Json) :=
  other.foldl (fun acc kv => alistSet acc kv.1 kv.2) m

/-! ### Model of `json.loads` (the `json` standard-library collaborator)

A recursive-descent parser for the JSON grammar: this models what
`json.loads(line.decode('utf-8'))` accepts and produces in
`Connection.receive`.  Numbers are kept as exact rationals. -/

/-- JSON inter-token whitespace. -/
def isJsonWs (c : Char) : Bool :=
  c = ' ' || c = '\t' || c = '\n' || c = '\r'

/-- Skip JSON whitespace. -/
def skipWs (l : List Char) : List Char := l.dropWhile isJsonWs

/-- Numeric value of a hex digit, if any. -/
def hexVal (c : Char) : Option ℕ :=
  if c.isDigit then some (c.toNat - 48)
  else if 'a' ≤ c ∧ c ≤ 'f' then some (c.toNat - 87)
  else if 'A' ≤ c ∧ c ≤ 'F' then some (c.toNat - 55)
  else none

/-- Decimal value of a digit string. -/
def digitsToNat (ds : List Char) : ℕ :=
  ds.foldl (fun acc c => 10 * acc + (c.toNat - 48)) 0

/-- Parse the body of a JSON string literal (after the opening quote),
returning the characters and the input remaining after the closing quote. -/
def parseStrChars : List Char → Option (List Char × List Char)
  | [] => none
  | '"' :: r => some ([], r)
  | '\\' :: e :: r =>
    match e with
    | '"' => (parseStrChars r).map (fun p => ('"' :: p.1, p.2))
    | '\\' => (parseStrChars r).map (fun p => ('\\' :: p.1, p.2))
    | '/' => (parseStrChars r).map (fun p => ('/' :: p.1, p.2))
    | 'b' => (parseStrChars r).map (fun p => (Char.ofNat 8 :: p.1, p.2))
    | 'f' => (parseStrChars r).map (fun p => (Char.ofNat 12 :: p.1, p.2))
    | 'n' => (parseStrChars r).map (fun p => ('\n' :: p.1, p.2))
    | 'r' => (parseStrChars r).map (fun p => ('\r' :: p.1, p.2))
    | 't' => (parseStrChars r).map (fun p => ('\t' :: p.1, p.2))
    | 'u' =>
      match r with
      | h1 :: h2 :: h3 :: h4 :: r2 =>
        match hexVal h1, hexVal h2, hexVal h3, hexVal h4 with
        | some a, some b, some c, some d =>
          (parseStrChars r2).map
            (fun p => (Char.ofNat (((a * 16 + b) * 16 + c) * 16 + d) :: p.1, p.2))
        | _, _, _, _ => none
      | _ => none
    | _ => none
  | c :: r =>
    if c.toNat < 32 then none
    else (parseStrChars r).map (fun p => (c :: p.1, p.2))

/-- Truncation toward zero, Python's `int()` on a number. -/
def ratTrunc (q : ℚ) : ℤ := if 0 ≤ q then ⌊q⌋ else ⌈q⌉

/-- Assemble a JSON number from sign, integer digits, fraction digits and
decimal exponent. -/
def mkNum (neg : Bool) (intDs fracDs : List Char) (exp : ℤ) : Json :=
  let base : ℚ := (digitsToNat intDs : ℚ) + (digitsToNat fracDs : ℚ) / (10 : ℚ) ^ fracDs.length
  .num ((if neg then -base else base) * (10 : ℚ) ^ exp)

/-- Parse the optional exponent part of a JSON number. -/
def parseExpPart (neg : Bool) (intDs fracDs : List Char) :
    List Char → Option (Json × List Char)
  | 'e' :: r => parseExpDigits neg intDs fracDs r
  | 'E' :: r => parseExpDigits neg intDs fracDs r
  | l => some (mkNum neg intDs fracDs 0, l)
where
  parseExpDigits (neg : Bool) (intDs fracDs : List Char) (r : List Char) :
      Option (Json × List Char) :=
    let (eneg, r1) :=
      match r with
      | '+' :: r2 => (false, r2)
      | '-' :: r2 => (true, r2)
      | _ => (false, r)
    let eDs := r1.takeWhile Char.isDigit
    if eDs = [] then none
    else
      some (mkNum neg intDs fracDs
              (if eneg then -(digitsToNat eDs : ℤ) else (digitsToNat eDs : ℤ)),
            r1.dropWhile Char.isDigit)

/-- Parse a JSON number (no leading zeros, mandatory digits around the dot). -/
def parseNumber (l : List Char) : Option (Json × List Char) :=
  let (neg, l1) := match l with | '-' :: r => (true, r) | _ => (false, l)
  let intDs := l1.takeWhile Char.isDigit
  let l2 := l1.dropWhile Char.isDigit
  if intDs = [] then none
  else if intDs.head? = some '0' ∧ intDs.length > 1 then none
  else
    match l2 with
    | '.' :: r =>
      let fracDs := r.takeWhile Char.isDigit
      if fracDs = [] then none
      else parseExpPart neg intDs fracDs (r.dropWhile Char.isDigit)
    | _ => parseExpPart neg intDs [] l2

mutual

/-- Parse one JSON value, fuelled for termination. -/
def parseVal : ℕ → List Char → Option (Json × List Char)
  | 0, _ => none
  | fuel + 1, l =>
    match skipWs l with
    | 'n' :: 'u' :: 'l' :: 'l' :: r => some (.null, r)
    | 't' :: 'r' :: 'u' :: 'e' :: r => some (.bool true, r)
    | 'f' :: 'a' :: 'l' :: 's' :: 'e' :: r => some (.bool false, r)
    | '"' :: r => (parseStrChars r).map (fun p => (.str (String.mk p.1), p.2))
    | '{' :: r =>
      match skipWs r with
      | '}' :: r2 => some (.obj [], r2)
      | r1 =>
        match parseMembers fuel r1 with
        | some (prs, r2) =>
          -- json.loads builds a dict from the pairs: later duplicates win
          some (.obj (prs.foldl (fun acc kv => alistSet acc kv.1 kv.2) []), r2)
        | none => none
    | '[' :: r =>
      match skipWs r with
      | ']' :: r2 => some (.arr [], r2)
      | r1 =>
        match parseElems fuel r1 with
        | some (items, r2) => some (.arr items, r2)
        | none => none
    | r => parseNumber r

/-- Parse `string : value (, string : value)*` then the closing brace. -/
def parseMembers : ℕ → List Char → Option (List (String × Json) × List Char)
  | 0, _ => none
  | fuel + 1, l =>
    match skipWs l with
    | '"' :: r =>
      match parseStrChars r with
      | none => none
      | some (key, r1) =>
        match skipWs r1 with
        | ':' :: r2 =>
          match parseVal fuel r2 with
          | none => none
          | some (v, r3) =>
            match skipWs r3 with
            | ',' :: r4 =>
              match parseMembers fuel r4 with
              | some (prs, r5) => some ((String.mk key, v) :: prs, r5)
              | none => none
            | '}' :: r4 => some ([(String.mk key, v)], r4)
            | _ => none
        | _ => none
    | _ => none

/-- Parse `value (, value)*` then the closing bracket. -/
def parseElems : ℕ → List Char → Option (List Json × List Char)
  | 0, _ => none
  | fuel + 1, l =>
    match parseVal fuel l with
    | none => none
    | some (v, r1) =>
      match skipWs r1 with
      | ',' :: r2 =>
        match parseElems fuel r2 with
        | some (items, r3) => some (v :: items, r3)
        | none => none
      | ']' :: r2 => some ([v], r2)
      | _ => none

end

/-- Model of `json.loads` on a byte line: parse one complete JSON document, reject
empty input and trailing garbage. -/
def pyLoads (l : List Char) : Except Unit Json :=
  match parseVal (l.length + 1) l with
  | some (j, rest) => if skipWs rest = [] then .ok j else .error ()
  | none => .error ()

/-! ### `Connection.receive` (master.py 42-53)

A connection's read buffer is `self.data : List Char`.  `receive` loops
`recv(4096)` until the buffer holds a newline; an empty `recv` result means
the peer closed (receive returns `None`); otherwise the first line is split
off and `json.loads` applied to it.  The successive `recv` results of one
call are an input (`chunks`); exhausting them without a newline means the
real call would still be blocked in `recv`, modelled as `stuck`. -/

/-- Result of one `Connection.receive()` call. -/
inductive RecvResult where
  /-- model artifact: `recv` would block (not enough input supplied) -/
  | stuck : RecvResult
  /-- case `recv` returned an empty string: receive returns `None`; the buffer
  keeps whatever was accumulated -/
  | eof (data : List Char) : RecvResult
  /-- a line was split off the buffer: `j` is `json.loads(line)` (which may
  raise) and `data` is the remaining buffer `self.data[len(line)+1:]` -/
  | msg (j : Except Unit Json) (data : List Char) : RecvResult

/-- Split the first newline-terminated line off the buffer:
`line = data.split('\n', 1)[0]`, the buffer keeps `data[len(line)+1:]`,
and `json.loads` is applied to the line. -/
def Connection.splitFrame (data : List Char) : RecvResult :=
  .msg (pyLoads (data.takeWhile (· ≠ '\n'))) ((data.dropWhile (· ≠ '\n')).tail)

/-- The `while b'\n' not in self.data` loop of `Connection.receive`: if the
buffer already holds a newline no `recv` happens; otherwise consume `recv`
results until one contains a newline or is empty (EOF). -/
def Connection.receiveLoop : List (List Char) → List Char → RecvResult
  | [], data =>
    if '\n' ∈ data then Connection.splitFrame data else .stuck
  | c :: cs, data =>
    if '\n' ∈ data then Connection.splitFrame data
    else if c = [] then .eof data
    else Connection.receiveLoop cs (data ++ c)

/-- Full `Connection.receive`: buffer chunks until a newline is present, then
split off the first line and decode it. -/
def Connection.receive (data : List Char) (chunks : List (List Char)) :
    RecvResult :=
  Connection.receiveLoop chunks data

/-! ### The worker loop (`BoardRunner.run`, master.py 123-197) -/

/-- The driver contract as used by the worker loop: `status()` is a pure
read, `command(cmd)` may mutate the driver state, return a response, or
raise, and `make_safe()` restores the safe state. -/
structure Driver (σ : Type) where
  status : σ → Json
  command : σ → Json → Except PyErr (σ × Option Json)
  make_safe : σ → σ

/-- Observable actions of one worker, in program order.  `accept` is
`server_socket.accept()`, `sendStatus` is `_send_board_status`,
`sendResponse` is `_send_command_response` (each `send` frames its message
as one JSON line), `receive` is a completed `connection.receive()`,
`dispatch` is `board.command(command)`, and `makeSafe` is
`board.make_safe()`. -/
inductive Event where
  | accept (sock : ℕ) : Event
  | sendStatus (sock : ℕ) (msg : Json) : Event
  | sendResponse (sock : ℕ) (msg : Json) : Event
  | receive (sock : ℕ) (cmd : Json) : Event
  | dispatch (sock : ℕ) (cmd : Json) : Event
  | makeSafe : Event

/-- Python `command == {}`: a decoded JSON value equals the empty dict
exactly when it is the empty object. -/
def isEmptyObj : Json → Bool
  | .obj [] => true
  | _ => false

/-- The socket a given event concerns, if any. -/
def Event.tag : Event → Option ℕ
  | .accept s => some s
  | .sendStatus s _ => some s
  | .sendResponse s _ => some s
  | .receive s _ => some s
  | .dispatch s _ => some s
  | .makeSafe => none

/-- Worker state: the connection map (socket → read buffer, in insertion
order, as a Python dict) and the driver state. -/
structure WorkerState (σ : Type) where
  connections : List (ℕ × List Char)
  driver : σ

/-- One `select` round of inputs to the loop: whether the listening socket
is readable (and which socket id `accept` yields), which connection sockets
are read-ready, which are error-ready, and what `recv` returns on each
socket during this round. -/
structure StepInput where
  newConn : Option ℕ
  readable : List ℕ
  errorable : List ℕ
  chunks : ℕ → List (List Char)

/-- Result of handling one readable socket inside the `for sock in
readable` loop. -/
inductive SockStep (σ : Type) where
  /-- model artifact: blocked inside `recv` -/
  | stuck : SockStep σ
  /-- case `receive` returned `None`: the socket joins `dead_sockets` -/
  | dead (data : List Char) : SockStep σ
  /-- a frame was handled; new buffer and driver state -/
  | handled (evs : List Event) (data : List Char) (drv : σ) : SockStep σ
  /-- an uncaught exception: the worker process dies -/
  | crash (evs : List Event) (e : PyErr) : SockStep σ

/-- The events emitted while handling one socket. -/
def SockStep.events {σ : Type} : SockStep σ → List Event
  | .stuck => []
  | .dead _ => []
  | .handled evs _ _ => evs
  | .crash evs _ => evs

/-- Handle one readable socket (master.py 164-181): receive one frame; on
EOF mark the socket dead; an undecodable frame raises out of the loop; the
empty object is not dispatched; otherwise `board.command` runs and a
non-`None` response is sent back; finally the current status is sent. -/
def handleSock {σ : Type} (D : Driver σ) (drv : σ) (x : ℕ) (data : List Char)
    (chunks : List (List Char)) : SockStep σ :=
  match Connection.receive data chunks with
  | .stuck => .stuck
  | .eof d => .dead d
  | .msg (.error _) _ => .crash [] .jsonDecode
  | .msg (.ok cmd) d =>
    if isEmptyObj cmd then
      .handled [.receive x cmd, .sendStatus x (D.status drv)] d drv
    else
      match D.command drv cmd with
      | .error e => .crash [.receive x cmd, .dispatch x cmd] e
      | .ok (drv', resp) =>
        .handled
          ([.receive x cmd, .dispatch x cmd] ++
            (match resp with
             | some r => [.sendResponse x (Json.obj [("response", r)])]
             | none => []) ++
            [.sendStatus x (D.status drv')])
          d drv'

/-- Result of the `for sock in readable` loop: events, updated connection
buffers and driver state, and the sockets collected into `dead_sockets`. -/
inductive ProcResult (σ : Type) where
  | stuck (evs : List Event) : ProcResult σ
  | crash (evs : List Event) (e : PyErr) : ProcResult σ
  | ok (evs : List Event) (conns : List (ℕ × List Char)) (drv : σ)
      (dead : List ℕ) : ProcResult σ

/-- The events emitted by the `for sock in readable` loop. -/
def ProcResult.events {σ : Type} : ProcResult σ → List Event
  | .stuck evs => evs
  | .crash evs _ => evs
  | .ok evs _ _ _ => evs

/-- A socket whose `receive` returned `None` joins `dead_sockets` ahead of
whatever the rest of the loop collects. -/
def deadWrap {σ : Type} (x : ℕ) : ProcResult σ → ProcResult σ
  | .ok evs conns' drv' dead => .ok evs conns' drv' (x :: dead)
  | r => r

/-- The events of a handled socket precede whatever the rest of the loop
emits. -/
def handledWrap {σ : Type} (evs : List Event) : ProcResult σ → ProcResult σ
  | .ok evs' conns' drv' dead => .ok (evs ++ evs') conns' drv' dead
  | .crash evs' e => .crash (evs ++ evs') e
  | .stuck evs' => .stuck (evs ++ evs')

/-- The `for sock in readable` loop: sockets not in the map are skipped
(the `KeyError` branch), each present socket is handled in order. -/
def processSockets {σ : Type} (D : Driver σ) (drv : σ)
    (conns : List (ℕ × List Char)) (chunks : ℕ → List (List Char)) :
    List ℕ → ProcResult σ
  | [] => .ok [] conns drv []
  | x :: rest =>
    match alistGet conns x with
    | none => processSockets D drv conns chunks rest
    | some data =>
      match handleSock D drv x data (chunks x) with
      | .stuck => .stuck []
      | .crash evs e => .crash evs e
      | .dead d => deadWrap x (processSockets D drv (alistSet conns x d) chunks rest)
      | .handled evs d drv' =>
        handledWrap evs (processSockets D drv' (alistSet conns x d) chunks rest)

/-- Model of `_close_dead_sockets` (master.py 191-197): delete each dead socket from
the map (missing keys ignored) and close it. -/
def closeDeadSockets (conns : List (ℕ × List Char)) (dead : List ℕ) :
    List (ℕ × List Char) :=
  conns.filter (fun kv => !(dead.contains kv.1))

/-- Outcome of one loop iteration. -/
inductive StepOutcome (σ : Type) where
  | stuck : StepOutcome σ
  | crash (e : PyErr) : StepOutcome σ
  | ok (s : WorkerState σ) : StepOutcome σ

/-- One iteration of the `while True` loop in `BoardRunner.run`
(master.py 140-189): optionally accept one client and immediately send it
the current status, run the `for sock in readable` loop (the accepted
socket was appended to `readable`), extend `dead_sockets` with the
error-ready sockets, close the dead sockets, and if sockets died and the
map is now empty call `board.make_safe()`. -/
def runStep {σ : Type} (D : Driver σ) (s : WorkerState σ) (inp : StepInput) :
    List Event × StepOutcome σ :=
  let acceptEvs :=
    match inp.newConn with
    | none => []
    | some c => [Event.accept c, Event.sendStatus c (D.status s.driver)]
  let conns1 :=
    match inp.newConn with
    | none => s.connections
    | some c => alistSet s.connections c []
  let readList :=
    match inp.newConn with
    | none => inp.readable
    | some c => inp.readable ++ [c]
  match processSockets D s.driver conns1 inp.chunks readList with
  | .stuck evs => (acceptEvs ++ evs, .stuck)
  | .crash evs e => (acceptEvs ++ evs, .crash e)
  | .ok evs conns2 drv2 dead =>
    let deadAll := dead ++ inp.errorable
    let conns3 := closeDeadSockets conns2 deadAll
    if !deadAll.isEmpty && conns3.isEmpty then
      (acceptEvs ++ evs ++ [.makeSafe], .ok ⟨conns3, D.make_safe drv2⟩)
    else
      (acceptEvs ++ evs, .ok ⟨conns3, drv2⟩)

/-- The worker's event trace over a sequence of `select` rounds; a crashed
(or blocked) worker produces no further events. -/
def runTrace {σ : Type} (D : Driver σ) : WorkerState σ → List StepInput → List Event
  | _, [] => []
  | s, inp :: rest =>
    match runStep D s inp with
    | (evs, .ok s') => evs ++ runTrace D s' rest
    | (evs, _) => evs

/-! ### `BoardRunner.broadcast` (master.py 102-111) -/

/-- What `connection.send(message)` does for one connection during a
broadcast: succeed, raise `ConnectionRefusedError`, or raise some other
exception. -/
inductive SendOutcome where
  | ok : SendOutcome
  | connectionRefused : SendOutcome
  | raised (e : PyErr) : SendOutcome

/-- Result of a `broadcast` call: the messages successfully sent (in
connection-map order) and the exception escaping the call, if any.  The
connection map itself is never modified: the `ConnectionRefusedError`
handler runs `self.connections.remove(connection)`, but `self.connections`
is a dict, which has no `remove` attribute, so that line raises
`AttributeError` before anything is removed. -/
structure BroadcastResult where
  sent : List (ℕ × Json)
  exn : Option PyErr

/-- Computes `message = dict(message); message['broadcast'] = True`. -/
def broadcastMsg (msg : List (String × Json)) : List (String × Json) :=
  alistSet msg "broadcast" (.bool true)

/-- Iterate `connection.send(message)` over `self.connections.values()`:
a `ConnectionRefusedError` reaches the `remove` line and raises
`AttributeError`; any other exception propagates directly. -/
def broadcastLoop (msg : Json) (sendResult : ℕ → SendOutcome) :
    List (ℕ × List Char) → BroadcastResult
  | [] => ⟨[], none⟩
  | (k, _) :: rest =>
    match sendResult k with
    | .ok =>
      let r := broadcastLoop msg sendResult rest
      ⟨(k, msg) :: r.sent, r.exn⟩
    | .connectionRefused => ⟨[], some .attributeError⟩
    | .raised e => ⟨[], some e⟩

/-- Model of `BoardRunner.broadcast(message)`. -/
def BoardRunner.broadcast (conns : List (ℕ × List Char))
    (sendResult : ℕ → SendOutcome) (msg : List (String × Json)) :
    BroadcastResult :=
  broadcastLoop (.obj (broadcastMsg msg)) sendResult conns

/-! ### Trace predicates used to state the claims -/

/-- Is `e` a message sent to socket `c` (a status or response frame)? -/
def msgTo (c : ℕ) : Event → Bool
  | .sendStatus k _ => k == c
  | .sendResponse k _ => k == c
  | _ => false

/-- Is `e` a completed receive of a command frame from socket `c`? -/
def recvFrom (c : ℕ) : Event → Bool
  | .receive k _ => k == c
  | _ => false

/-- Predicate `okAfter c seen evs`: walking `evs`, every message sent to socket `c`
is preceded by an earlier receive from `c` (or `seen` was already true). -/
def okAfter (c : ℕ) : Bool → List Event → Bool
  | _, [] => true
  | seen, e :: rest => (!(msgTo c e) || seen) && okAfter c (seen || recvFrom c e) rest

/-- Does the event concern socket `x`? -/
def tagIs (x : ℕ) (e : Event) : Bool := e.tag == some x

/-! ### `Board` defaults (devices_base.py 49-96) -/

/-- A Python dict with string keys holding JSON values. -/
abbrev PyDict : Type := List (String × Json)

/-- Default `Board.command`: the default is `pass`, i.e. no state change and a
`None` return. -/
def Board.command {σ : Type} (s : σ) (_cmd : Json) : σ × Option Json := (s, none)

/-- Default `Board.make_safe`: the default is `pass`. -/
def Board.make_safe {σ : Type} (s : σ) : σ := s

/-! ### `BoardMeta.board_type_id` (devices_base.py 25-46) -/

/-- Model of `re.sub` with the pattern of non-initial capitals: put an
underscore before every upper-case letter. -/
def underscoreUppers : List Char → List Char
  | [] => []
  | c :: rest =>
    (if c.isUpper then ['_', c] else [c]) ++ underscoreUppers rest

/-- Python `name.endswith('Board')` on the class name's characters. -/
def endsWithBoard (l : List Char) : Bool :=
  l.reverse.take 5 == ['d', 'r', 'a', 'o', 'B']

/-- Python slicing `name[:-5]`. -/
def dropLast5 (l : List Char) : List Char :=
  (l.reverse.drop 5).reverse

/-- The snake-case derivation: strip a trailing `Board`, underscore every
non-initial capital, lower-case the result. -/
def snakeFromClassName (name : String) : String :=
  let full := if endsWithBoard name.data then dropLast5 name.data else name.data
  let chars :=
    match full with
    | [] => []
    | c :: rest => c :: underscoreUppers rest
  String.mk (chars.map Char.toLower)

/-- Model of `BoardMeta.board_type_id`: an explicit `board_type_id` in the class
dict wins, otherwise the id is derived from the class name. -/
def board_type_id (override : Option String) (className : String) : String :=
  match override with
  | some s => s
  | none => snakeFromClassName className

/-- The worker's socket path `<root>/<type_id>/<name>`
(`BoardRunner.__init__`, master.py 63-65). -/
def socketPath (rootDir typeId name : String) : String :=
  rootDir ++ "/" ++ typeId ++ "/" ++ name

/-! ### `MotorBoard` (devices.py 38-105) -/

/-- Model of `MotorBoard.make_safe`: brake both channels and record that status. -/
def MotorBoard.make_safe (_st : PyDict) : PyDict :=
  [("m0", .str "brake"), ("m1", .str "brake")]

/-- Model of `MotorBoard.status`: return `self._status`. -/
def MotorBoard.status (st : PyDict) : Json := .obj st

/-- Model of `MotorBoard.byte_for_speed` (devices.py 78-93).  The string keywords
map to 1 and 2; a number in `[-1, 1]` maps to `128 + int(100 * value)`
(Python booleans are numbers: `True` is 1, `False` 0); an out-of-range
number hits the `raise ValueError` branch; any other value fails the
`-1 <= value` comparison itself with a `TypeError`. -/
def MotorBoard.byte_for_speed : Json → Except PyErr ℤ
  | .str s =>
    if s = "coast" then .ok 1
    else if s = "brake" then .ok 2
    else .error .typeError
  | .num q =>
    if -1 ≤ q ∧ q ≤ 1 then .ok (128 + ratTrunc (100 * q))
    else .error .valueError
  | .bool b => .ok (128 + (if b then 100 else 0))
  | _ => .error .typeError

/-- Result of `MotorBoard.command`: the `self._status` dict after the call
(it is mutated before the serial write) and the outcome. -/
structure MotorCmdResult where
  status : PyDict
  outcome : Except PyErr (Option Json)

/-- Model of `MotorBoard.command` (devices.py 95-105): `self._status.update(cmd)`
runs FIRST, then the serial payload is built, evaluating
`byte_for_speed(self._status['m0'])` and then
`byte_for_speed(self._status['m1'])`; any exception there leaves the
already-updated status in place.  The serial write itself is abstracted;
the method returns `None`. -/
def MotorBoard.command (st : PyDict) (cmd : Json) : MotorCmdResult :=
  match cmd with
  | .obj fields =>
    let st' := dictUpdate st fields
    match alistGet st' "m0" with
    | none => ⟨st', .error .keyError⟩
    | some v0 =>
      match MotorBoard.byte_for_speed v0 with
      | .error e => ⟨st', .error e⟩
      | .ok _ =>
        match alistGet st' "m1" with
        | none => ⟨st', .error .keyError⟩
        | some v1 =>
          match MotorBoard.byte_for_speed v1 with
          | .error e => ⟨st', .error e⟩
          | .ok _ => ⟨st', .ok none⟩
  | _ => ⟨st, .error .typeError⟩

/-! ### `GameState` (devices.py 144-194)

The filesystem is modelled as the list of existing paths (as byte
strings); `glob.iglob` returns the existing paths matching the pattern in
listing order. -/

/-- A filesystem: the list of existing paths. -/
abbrev Fs : Type := List (List Char)

/-- Does `p` match the glob `/media/usb?/zone-?`?  Each `?` matches one
character other than the path separator. -/
def globMatchZone : List Char → Bool
  | a0 :: a1 :: a2 :: a3 :: a4 :: a5 :: a6 :: a7 :: a8 :: a9 :: c1 ::
      a11 :: a12 :: a13 :: a14 :: a15 :: a16 :: c2 :: [] =>
    (a0 == '/') && (a1 == 'm') && (a2 == 'e') && (a3 == 'd') && (a4 == 'i') &&
    (a5 == 'a') && (a6 == '/') && (a7 == 'u') && (a8 == 's') && (a9 == 'b') &&
    (c1 != '/') && (a11 == '/') && (a12 == 'z') && (a13 == 'o') &&
    (a14 == 'n') && (a15 == 'e') && (a16 == '-') && (c2 != '/')
  | _ => false

/-- Try to match the regex `zone-(\d)` at the head of the string, returning
the digit's value. -/
def matchZoneAt (l : List Char) : Option ℕ :=
  match l with
  | a :: b :: c :: d :: e :: f :: _ =>
    if a = 'z' ∧ b = 'o' ∧ c = 'n' ∧ d = 'e' ∧ e = '-' ∧ f.isDigit then
      some (f.toNat - 48)
    else none
  | _ => none

/-- Model of `re.search` with pattern `zone-(\d)`: the match at the leftmost position. -/
def zoneSearch : List Char → Option ℕ
  | [] => none
  | c :: rest =>
    match matchZoneAt (c :: rest) with
    | some n => some n
    | none => zoneSearch rest

/-- Model of `os.path.dirname`: everything before the last separator, with trailing
separators stripped unless the head is all separators. -/
def dirname (p : List Char) : List Char :=
  let headIncl := (p.reverse.dropWhile (· ≠ '/')).reverse
  if headIncl ≠ [] ∧ headIncl.any (· ≠ '/') then
    (headIncl.reverse.dropWhile (· = '/')).reverse
  else headIncl

/-- Model of `os.path.join(a, b)` for a relative `b`. -/
def pathJoin (a b : List Char) : List Char :=
  if a = [] then b
  else if a.getLast? = some '/' then a ++ b
  else a ++ '/' :: b

/-- Model of `GameState.as_siblings(p, names)` with the fixed ignore list
`('main.py',)` produces exactly this path. -/
def siblingMainPy (p : List Char) : List Char :=
  pathJoin (dirname p) "main.py".data

/-- The final component of a path (everything after the last separator);
used to state the discovery property over file names. -/
def lastComponent (p : List Char) : List Char :=
  (p.reverse.takeWhile (· ≠ '/')).reverse

/-- The body of `GameState.find_zone`'s loop over the glob results: skip a
candidate if the regex does not match or a sibling from the ignore list
exists, otherwise return the captured digit. -/
def findZoneLoop (fs : Fs) : List (List Char) → Option ℕ
  | [] => none
  | c :: rest =>
    match zoneSearch c with
    | none => findZoneLoop fs rest
    | some n =>
      if siblingMainPy c ∈ fs then findZoneLoop fs rest
      else some n

/-- Model of `GameState.find_zone`: iterate the glob matches; `none` models the
`NoZoneFound` exception. -/
def GameState.find_zone (fs : Fs) : Option ℕ :=
  findZoneLoop fs (fs.filter globMatchZone)

/-- Model of `GameState.status` (devices.py 187-194). -/
def GameState.status (fs : Fs) : Json :=
  match GameState.find_zone fs with
  | some n => .obj [("zone", .num n), ("mode", .str "competition")]
  | none => .obj [("zone", .num 0), ("mode", .str "development")]

/-- Note `GameState` does not override `command`, so it inherits the `Board`
default (`pass`); its driver state is the (read-only) filesystem. -/
def GameState.command (fs : Fs) (cmd : Json) : Fs × Option Json :=
  Board.command fs cmd

/-- The game board as a worker driver. -/
def gameDriver : Driver Fs where
  status := GameState.status
  command := fun s cmd => .ok (GameState.command s cmd)
  make_safe := Board.make_safe

/-! ## Supporting lemmas -/

theorem alistGet_set_self {κ α : Type} [DecidableEq κ] (m : List (κ × α))
    (k : κ) (v : α) : alistGet (alistSet m k v) k = some v := by
  induction m with
  | nil => simp [alistGet, alistSet]
  | cons kv rest ih =>
    rw [alistSet]
    by_cases hk : kv.1 = k
    · rw [if_pos hk, alistGet, if_pos rfl]
    · rw [if_neg hk, alistGet, if_neg hk]
      exact ih

theorem alistGet_set_ne {κ α : Type} [DecidableEq κ] (m : List (κ × α))
    (k k' : κ) (v : α) (h : k ≠ k') :
    alistGet (alistSet m k v) k' = alistGet m k' := by
  induction m with
  | nil => simp [alistGet, alistSet, h]
  | cons kv rest ih =>
    rw [alistSet]
    by_cases hk : kv.1 = k
    · rw [if_pos hk, alistGet, alistGet, if_neg h, if_neg (hk ▸ h)]
    · rw [if_neg hk, alistGet, alistGet]
      by_cases hk' : kv.1 = k'
      · rw [if_pos hk', if_pos hk']
      · rw [if_neg hk', if_neg hk']
        exact ih

theorem alistSet_length {κ α : Type} [DecidableEq κ] (m : List (κ × α))
    (k : κ) (v : α) (h : (alistGet m k).isSome) :
    (alistSet m k v).length = m.length := by
  induction m with
  | nil => simp [alistGet] at h
  | cons kv rest ih =>
    rw [alistSet]
    by_cases hk : kv.1 = k
    · rw [if_pos hk, List.length_cons, List.length_cons]
    · rw [if_neg hk, List.length_cons, List.length_cons]
      rw [alistGet, if_neg hk] at h
      rw [ih h]

theorem alistSet_length_pos {κ α : Type} [DecidableEq κ] (m : List (κ × α))
    (k : κ) (v : α) : 0 < (alistSet m k v).length := by
  cases m with
  | nil => simp [alistSet]
  | cons kv rest =>
    rw [alistSet]
    by_cases hk : kv.1 = k
    · rw [if_pos hk]; simp
    · rw [if_neg hk]; simp

theorem closeDeadSockets_cons (kv : ℕ × List Char)
    (rest : List (ℕ × List Char)) (dead : List ℕ) :
    closeDeadSockets (kv :: rest) dead =
      if kv.1 ∈ dead then closeDeadSockets rest dead
      else kv :: closeDeadSockets rest dead := by
  unfold closeDeadSockets
  by_cases hk : kv.1 ∈ dead <;> simp [List.filter_cons, hk]

theorem closeDeadSockets_nil (m : List (ℕ × List Char)) :
    closeDeadSockets m [] = m := by
  induction m with
  | nil => rfl
  | cons kv rest ih =>
    rw [closeDeadSockets_cons, if_neg (List.not_mem_nil kv.1), ih]

theorem closeDeadSockets_get_notmem (m : List (ℕ × List Char))
    (dead : List ℕ) (x : ℕ) (hx : x ∉ dead) :
    alistGet (closeDeadSockets m dead) x = alistGet m x := by
  induction m with
  | nil => rfl
  | cons kv rest ih =>
    rw [closeDeadSockets_cons]
    by_cases hk : kv.1 ∈ dead
    · have hne : kv.1 ≠ x := fun h => hx (h ▸ hk)
      rw [if_pos hk, ih, alistGet, if_neg hne]
    · rw [if_neg hk]
      by_cases hkx : kv.1 = x
      · rw [alistGet, alistGet, if_pos hkx, if_pos hkx]
      · rw [alistGet, alistGet, if_neg hkx, if_neg hkx, ih]

theorem okAfter_append (c : ℕ) (seen : Bool) (l1 l2 : List Event) :
    okAfter c seen (l1 ++ l2) =
      (okAfter c seen l1 && okAfter c (seen || l1.any (recvFrom c)) l2) := by
  induction l1 generalizing seen with
  | nil => simp [okAfter]
  | cons e t ih =>
    simp only [List.cons_append, List.append_eq, okAfter, List.any_cons, ih,
      Bool.or_assoc, Bool.and_assoc]

theorem handleSock_tag {σ : Type} (D : Driver σ) (drv : σ) (x : ℕ)
    (data : List Char) (chunks : List (List Char)) :
    ∀ e ∈ (handleSock D drv x data chunks).events, e.tag = some x := by
  unfold handleSock
  repeat' split
  all_goals simp [SockStep.events, Event.tag]

theorem handleSock_okAfter {σ : Type} (D : Driver σ) (drv : σ) (x : ℕ)
    (data : List Char) (chunks : List (List Char)) (c : ℕ) (seen : Bool) :
    okAfter c seen (handleSock D drv x data chunks).events = true := by
  unfold handleSock
  repeat' split
  all_goals simp only [SockStep.events, List.append_eq, List.cons_append,
    List.nil_append, okAfter, msgTo, recvFrom]
  all_goals cases hxc : x == c <;> simp [hxc]

/-- Computation rule for `handleSock` once the receive result is known. -/
theorem handleSock_recv_ok_eq {σ : Type} (D : Driver σ) (drv : σ) (x : ℕ)
    (data : List Char) (chunks : List (List Char)) (cmd : Json) (d' : List Char)
    (hRecv : Connection.receive data chunks = .msg (.ok cmd) d') :
    handleSock D drv x data chunks =
      if isEmptyObj cmd then
        .handled [.receive x cmd, .sendStatus x (D.status drv)] d' drv
      else
        match D.command drv cmd with
        | .error e => .crash [.receive x cmd, .dispatch x cmd] e
        | .ok (drv2, resp) =>
          .handled
            ([.receive x cmd, .dispatch x cmd] ++
              (match resp with
               | some r => [.sendResponse x (Json.obj [("response", r)])]
               | none => []) ++
              [.sendStatus x (D.status drv2)]) d' drv2 := by
  unfold handleSock
  rw [hRecv]

/-- If `receive` produced a decoded command, handling the socket either
completes normally — consuming exactly that one frame — or crashes the
worker (a driver exception); it never marks the socket dead. -/
theorem handleSock_of_recv_ok {σ : Type} (D : Driver σ) (drv : σ) (x : ℕ)
    (data : List Char) (chunks : List (List Char)) (cmd : Json) (d' : List Char)
    (hRecv : Connection.receive data chunks = .msg (.ok cmd) d') :
    (∃ bevs drv2, handleSock D drv x data chunks = .handled bevs d' drv2 ∧
      bevs.filter (recvFrom x) = [.receive x cmd]) ∨
    (∃ bevs e, handleSock D drv x data chunks = .crash bevs e) := by
  rw [handleSock_recv_ok_eq D drv x data chunks cmd d' hRecv]
  by_cases hping : isEmptyObj cmd = true
  · rw [if_pos hping]
    exact Or.inl ⟨_, drv, rfl, by simp [List.filter, recvFrom]⟩
  · rw [if_neg hping]
    rcases hc : D.command drv cmd with e | ⟨drv2, resp⟩
    · exact Or.inr ⟨_, e, rfl⟩
    · rcases resp with _ | r
      · exact Or.inl ⟨_, drv2, rfl,
          by simp [List.filter_append, List.filter, recvFrom]⟩
      · exact Or.inl ⟨_, drv2, rfl,
          by simp [List.filter_append, List.filter, recvFrom]⟩

/-- Handling a status ping (the decoded empty object) sends exactly one
status frame, dispatches nothing, and leaves the driver state unchanged. -/
theorem handleSock_ping {σ : Type} (D : Driver σ) (drv : σ) (x : ℕ)
    (data : List Char) (chunks : List (List Char)) (d' : List Char)
    (hRecv : Connection.receive data chunks = .msg (.ok (Json.obj [])) d') :
    handleSock D drv x data chunks =
      .handled [.receive x (Json.obj []), .sendStatus x (D.status drv)] d' drv := by
  rw [handleSock_recv_ok_eq D drv x data chunks (Json.obj []) d' hRecv]
  rfl

theorem deadWrap_events {σ : Type} (x : ℕ) (r : ProcResult σ) :
    (deadWrap x r).events = r.events := by
  cases r <;> rfl

theorem handledWrap_events {σ : Type} (evs : List Event) (r : ProcResult σ) :
    (handledWrap evs r).events = evs ++ r.events := by
  cases r <;> rfl

theorem deadWrap_ok {σ : Type} (x : ℕ) (r : ProcResult σ)
    (evs : List Event) (conns' : List (ℕ × List Char)) (drv' : σ)
    (dead : List ℕ) (h : deadWrap x r = .ok evs conns' drv' dead) :
    ∃ dead0, r = .ok evs conns' drv' dead0 ∧ dead = x :: dead0 := by
  cases r with
  | stuck evs0 => exact absurd h (by simp [deadWrap])
  | crash evs0 e0 => exact absurd h (by simp [deadWrap])
  | ok evs0 conns0 drv0 dead0 =>
    rw [deadWrap] at h
    injection h with h1 h2 h3 h4
    exact ⟨dead0, by rw [h1, h2, h3], h4.symm⟩

theorem handledWrap_ok {σ : Type} (evs : List Event) (r : ProcResult σ)
    (evsAll : List Event) (conns' : List (ℕ × List Char)) (drv' : σ)
    (dead : List ℕ) (h : handledWrap evs r = .ok evsAll conns' drv' dead) :
    ∃ evs1, r = .ok evs1 conns' drv' dead ∧ evsAll = evs ++ evs1 := by
  cases r with
  | stuck evs0 => exact absurd h (by simp [handledWrap])
  | crash evs0 e0 => exact absurd h (by simp [handledWrap])
  | ok evs0 conns0 drv0 dead0 =>
    rw [handledWrap] at h
    injection h with h1 h2 h3 h4
    exact ⟨evs0, by rw [h2, h3, h4], h1.symm⟩

theorem proc_tags {σ : Type} (D : Driver σ) (chunks : ℕ → List (List Char)) :
    ∀ (socks : List ℕ) (drv : σ) (conns : List (ℕ × List Char)),
      ∀ e ∈ (processSockets D drv conns chunks socks).events,
        ∃ y ∈ socks, e.tag = some y := by
  intro socks
  induction socks with
  | nil =>
    intro drv conns e he
    simp [processSockets, ProcResult.events] at he
  | cons x rest ih =>
    intro drv conns e he
    rw [processSockets] at he
    rcases hget : alistGet conns x with _ | data
    · simp only [hget] at he
      obtain ⟨y, hy, ht⟩ := ih drv conns e he
      exact ⟨y, List.mem_cons_of_mem _ hy, ht⟩
    · simp only [hget] at he
      have htag := handleSock_tag D drv x data (chunks x)
      rcases hh : handleSock D drv x data (chunks x) with _ | d | ⟨evs, d, drv2⟩ | ⟨evs, err⟩
      all_goals rw [hh] at htag
      all_goals simp only [hh] at he
      · simp [ProcResult.events] at he
      · rw [deadWrap_events] at he
        obtain ⟨y, hy, ht⟩ := ih drv (alistSet conns x d) e he
        exact ⟨y, List.mem_cons_of_mem _ hy, ht⟩
      · rw [handledWrap_events, List.mem_append] at he
        rcases he with he | he
        · exact ⟨x, List.mem_cons_self _ _, htag e (by simpa [SockStep.events] using he)⟩
        · obtain ⟨y, hy, ht⟩ := ih drv2 (alistSet conns x d) e he
          exact ⟨y, List.mem_cons_of_mem _ hy, ht⟩
      · simp only [ProcResult.events] at he
        exact ⟨x, List.mem_cons_self _ _, htag e (by simpa [SockStep.events] using he)⟩

theorem proc_length {σ : Type} (D : Driver σ) (chunks : ℕ → List (List Char)) :
    ∀ (socks : List ℕ) (drv : σ) (conns : List (ℕ × List Char))
      (evs : List Event) (conns' : List (ℕ × List Char)) (drv' : σ) (dead : List ℕ),
      processSockets D drv conns chunks socks = .ok evs conns' drv' dead →
      conns'.length = conns.length := by
  intro socks
  induction socks with
  | nil =>
    intro drv conns evs conns' drv' dead h
    rw [processSockets] at h
    injection h with h1 h2 h3 h4
    rw [h2]
  | cons x rest ih =>
    intro drv conns evs conns' drv' dead h
    rw [processSockets] at h
    rcases hget : alistGet conns x with _ | data
    · simp only [hget] at h
      exact ih drv conns evs conns' drv' dead h
    · simp only [hget] at h
      rcases hh : handleSock D drv x data (chunks x) with _ | d | ⟨evs0, d, drv2⟩ | ⟨evs0, err⟩
      all_goals simp only [hh] at h
      · cases h
      · obtain ⟨dead0, hr, _⟩ := deadWrap_ok x _ evs conns' drv' dead h
        rw [ih drv (alistSet conns x d) evs conns' drv' dead0 hr,
          alistSet_length conns x d (by rw [hget]; rfl)]
      · obtain ⟨evs1, hr, _⟩ := handledWrap_ok evs0 _ evs conns' drv' dead h
        rw [ih drv2 (alistSet conns x d) evs1 conns' drv' dead hr,
          alistSet_length conns x d (by rw [hget]; rfl)]
      · cases h

theorem proc_get_notmem {σ : Type} (D : Driver σ) (chunks : ℕ → List (List Char))
    (z : ℕ) :
    ∀ (socks : List ℕ) (drv : σ) (conns : List (ℕ × List Char))
      (evs : List Event) (conns' : List (ℕ × List Char)) (drv' : σ) (dead : List ℕ),
      z ∉ socks →
      processSockets D drv conns chunks socks = .ok evs conns' drv' dead →
      alistGet conns' z = alistGet conns z := by
  intro socks
  induction socks with
  | nil =>
    intro drv conns evs conns' drv' dead _ h
    rw [processSockets] at h
    injection h with h1 h2 h3 h4
    rw [h2]
  | cons x rest ih =>
    intro drv conns evs conns' drv' dead hz h
    have hzx : x ≠ z := fun hh => hz (hh ▸ List.mem_cons_self x rest)
    have hzr : z ∉ rest := fun hh => hz (List.mem_cons_of_mem _ hh)
    rw [processSockets] at h
    rcases hget : alistGet conns x with _ | data
    · simp only [hget] at h
      exact ih drv conns evs conns' drv' dead hzr h
    · simp only [hget] at h
      rcases hh : handleSock D drv x data (chunks x) with _ | d | ⟨evs0, d, drv2⟩ | ⟨evs0, err⟩
      all_goals simp only [hh] at h
      · cases h
      · obtain ⟨dead0, hr, _⟩ := deadWrap_ok x _ evs conns' drv' dead h
        rw [ih drv (alistSet conns x d) evs conns' drv' dead0 hzr hr,
          alistGet_set_ne conns x z d hzx]
      · obtain ⟨evs1, hr, _⟩ := handledWrap_ok evs0 _ evs conns' drv' dead h
        rw [ih drv2 (alistSet conns x d) evs1 conns' drv' dead hzr hr,
          alistGet_set_ne conns x z d hzx]
      · cases h

theorem proc_dead_sub {σ : Type} (D : Driver σ) (chunks : ℕ → List (List Char)) :
    ∀ (socks : List ℕ) (drv : σ) (conns : List (ℕ × List Char))
      (evs : List Event) (conns' : List (ℕ × List Char)) (drv' : σ) (dead : List ℕ),
      processSockets D drv conns chunks socks = .ok evs conns' drv' dead →
      ∀ y ∈ dead, y ∈ socks := by
  intro socks
  induction socks with
  | nil =>
    intro drv conns evs conns' drv' dead h
    rw [processSockets] at h
    injection h with h1 h2 h3 h4
    rw [← h4]
    intro y hy
    exact absurd hy (List.not_mem_nil y)
  | cons x rest ih =>
    intro drv conns evs conns' drv' dead h y hy
    rw [processSockets] at h
    rcases hget : alistGet conns x with _ | data
    · simp only [hget] at h
      exact List.mem_cons_of_mem _ (ih drv conns evs conns' drv' dead h y hy)
    · simp only [hget] at h
      rcases hh : handleSock D drv x data (chunks x) with _ | d | ⟨evs0, d, drv2⟩ | ⟨evs0, err⟩
      all_goals simp only [hh] at h
      · cases h
      · obtain ⟨dead0, hr, hdd⟩ := deadWrap_ok x _ evs conns' drv' dead h
        rw [hdd] at hy
        rcases List.mem_cons.mp hy with h1 | h1
        · rw [h1]; exact List.mem_cons_self x rest
        · exact List.mem_cons_of_mem _
            (ih drv (alistSet conns x d) evs conns' drv' dead0 hr y h1)
      · obtain ⟨evs1, hr, _⟩ := handledWrap_ok evs0 _ evs conns' drv' dead h
        exact List.mem_cons_of_mem _
          (ih drv2 (alistSet conns x d) evs1 conns' drv' dead hr y hy)
      · cases h

theorem proc_okAfter {σ : Type} (D : Driver σ) (chunks : ℕ → List (List Char))
    (c : ℕ) :
    ∀ (socks : List ℕ) (drv : σ) (conns : List (ℕ × List Char)) (seen : Bool),
      okAfter c seen (processSockets D drv conns chunks socks).events = true := by
  intro socks
  induction socks with
  | nil =>
    intro drv conns seen
    simp [processSockets, ProcResult.events, okAfter]
  | cons x rest ih =>
    intro drv conns seen
    rw [processSockets]
    rcases hget : alistGet conns x with _ | data
    · simp only [hget]
      exact ih drv conns seen
    · simp only [hget]
      have hok := handleSock_okAfter D drv x data (chunks x) c seen
      rcases hh : handleSock D drv x data (chunks x) with _ | d | ⟨evs0, d, drv2⟩ | ⟨evs0, err⟩
      all_goals rw [hh] at hok
      all_goals simp only [hh]
      · simp [ProcResult.events, okAfter]
      · rw [deadWrap_events]
        exact ih drv (alistSet conns x d) seen
      · rw [handledWrap_events, okAfter_append]
        simp only [Bool.and_eq_true]
        exact ⟨by simpa [SockStep.events] using hok, ih drv2 (alistSet conns x d) _⟩
      · simpa [SockStep.events, ProcResult.events] using hok

theorem proc_handled {σ : Type} (D : Driver σ) (chunks : ℕ → List (List Char))
    (x : ℕ) (data d' : List Char) (cmd : Json)
    (hRecv : Connection.receive data (chunks x) = .msg (.ok cmd) d') :
    ∀ (socks : List ℕ) (drv : σ) (conns : List (ℕ × List Char))
      (evs : List Event) (conns' : List (ℕ × List Char)) (drv' : σ) (dead : List ℕ),
      socks.count x = 1 →
      alistGet conns x = some data →
      processSockets D drv conns chunks socks = .ok evs conns' drv' dead →
      ∃ drvX bevs drvX',
        handleSock D drvX x data (chunks x) = .handled bevs d' drvX' ∧
        evs.filter (tagIs x) = bevs ∧
        alistGet conns' x = some d' ∧ x ∉ dead := by
  intro socks
  induction socks with
  | nil =>
    intro drv conns evs conns' drv' dead hcount _ _
    simp [List.count_nil] at hcount
  | cons y rest ih =>
    intro drv conns evs conns' drv' dead hcount hget h
    rw [processSockets] at h
    by_cases hyx : y = x
    · subst hyx
      rw [List.count_cons_self] at hcount
      have hnotin : y ∉ rest := List.count_eq_zero.mp (by omega)
      simp only [hget] at h
      rcases handleSock_of_recv_ok D drv y data (chunks y) cmd d' hRecv with
        ⟨bevs, drv2, hh, _⟩ | ⟨bevs, e0, hh⟩
      · simp only [hh] at h
        obtain ⟨evs1, hr, hevs⟩ := handledWrap_ok bevs _ evs conns' drv' dead h
        refine ⟨drv, bevs, drv2, hh, ?_, ?_, ?_⟩
        · rw [hevs, List.filter_append]
          have h1 : bevs.filter (tagIs y) = bevs := by
            rw [List.filter_eq_self]
            intro e he
            have := handleSock_tag D drv y data (chunks y) e
              (by rw [hh]; simpa [SockStep.events] using he)
            simp [tagIs, this]
          have h2 : evs1.filter (tagIs y) = [] := by
            rw [List.filter_eq_nil_iff]
            intro e he
            obtain ⟨z, hz, ht⟩ := proc_tags D chunks rest drv2 (alistSet conns y d') e
              (by rw [hr]; exact he)
            have hzy : z ≠ y := fun hq => hnotin (hq ▸ hz)
            simp [tagIs, ht, hzy]
          rw [h1, h2, List.append_nil]
        · rw [proc_get_notmem D chunks y rest drv2 (alistSet conns y d') evs1
            conns' drv' dead hnotin hr, alistGet_set_self]
        · intro hx
          exact hnotin (proc_dead_sub D chunks rest drv2 (alistSet conns y d')
            evs1 conns' drv' dead hr y hx)
      · simp only [hh] at h
        cases h
    · have hxy : x ≠ y := fun hq => hyx hq.symm
      rw [List.count_cons_of_ne hxy] at hcount
      rcases hget0 : alistGet conns y with _ | dataY
      · simp only [hget0] at h
        exact ih drv conns evs conns' drv' dead hcount hget h
      · simp only [hget0] at h
        rcases hh : handleSock D drv y dataY (chunks y) with _ | d | ⟨evs0, d, drv2⟩ | ⟨evs0, err⟩
        all_goals simp only [hh] at h
        · cases h
        · obtain ⟨dead0, hr, hdd⟩ := deadWrap_ok y _ evs conns' drv' dead h
          obtain ⟨drvX, bevs, drvX', hhx, hfil, hget', hdead⟩ :=
            ih drv (alistSet conns y d) evs conns' drv' dead0 hcount
              (by rw [alistGet_set_ne conns y x d hyx]; exact hget) hr
          refine ⟨drvX, bevs, drvX', hhx, hfil, hget', ?_⟩
          rw [hdd]
          intro hx
          rcases List.mem_cons.mp hx with h1 | h1
          · exact hxy h1
          · exact hdead h1
        · obtain ⟨evs1, hr, hevs⟩ := handledWrap_ok evs0 _ evs conns' drv' dead h
          obtain ⟨drvX, bevs, drvX', hhx, hfil, hget', hdead⟩ :=
            ih drv2 (alistSet conns y d) evs1 conns' drv' dead hcount
              (by rw [alistGet_set_ne conns y x d hyx]; exact hget) hr
          refine ⟨drvX, bevs, drvX', hhx, ?_, hget', hdead⟩
          rw [hevs, List.filter_append]
          have h0 : evs0.filter (tagIs x) = [] := by
            rw [List.filter_eq_nil_iff]
            intro e he
            have := handleSock_tag D drv y dataY (chunks y) e
              (by rw [hh]; simpa [SockStep.events] using he)
            simp [tagIs, this, hyx]
          rw [h0, List.nil_append, hfil]
        · cases h

theorem okAfter_makeSafe (c : ℕ) (seen : Bool) :
    okAfter c seen [Event.makeSafe] = true := by
  simp [okAfter, msgTo]

theorem runStep_okAfter {σ : Type} (D : Driver σ) (s : WorkerState σ)
    (inp : StepInput) (c : ℕ) (hnc : inp.newConn ≠ some c) (seen : Bool) :
    okAfter c seen (runStep D s inp).1 = true := by
  unfold runStep
  rcases hn : inp.newConn with _ | c'
  · simp only [hn]
    rcases hp : processSockets D s.driver s.connections inp.chunks inp.readable with
      evs | ⟨evs, e⟩ | ⟨evs, conns2, drv2, dead⟩
    all_goals have hq := proc_okAfter D inp.chunks c inp.readable s.driver s.connections seen
    all_goals rw [hp] at hq
    all_goals simp only [ProcResult.events] at hq
    all_goals simp only [hp]
    · simpa using hq
    · simpa using hq
    · split
      · simp only [List.nil_append, okAfter_append, Bool.and_eq_true]
        exact ⟨hq, okAfter_makeSafe c _⟩
      · simpa using hq
  · have hcc : (c' == c) = false := by
      rw [beq_eq_false_iff_ne]
      intro hq
      exact hnc (by rw [hn, hq])
    simp only [hn]
    rcases hp : processSockets D s.driver (alistSet s.connections c' [])
        inp.chunks (inp.readable ++ [c']) with
      evs | ⟨evs, e⟩ | ⟨evs, conns2, drv2, dead⟩
    all_goals have hq := proc_okAfter D inp.chunks c (inp.readable ++ [c']) s.driver (alistSet s.connections c' [])
    all_goals rw [hp] at hq
    all_goals simp only [ProcResult.events] at hq
    all_goals simp only [hp]
    · simp only [List.cons_append, List.nil_append, okAfter, msgTo, recvFrom, hcc,
        Bool.not_false, Bool.true_or, Bool.true_and, Bool.or_false]
      exact hq _
    · simp only [List.cons_append, List.nil_append, okAfter, msgTo, recvFrom, hcc,
        Bool.not_false, Bool.true_or, Bool.true_and, Bool.or_false]
      exact hq _
    · split
      · simp only [List.cons_append, List.nil_append, okAfter, msgTo, recvFrom, hcc,
          Bool.not_false, Bool.true_or, Bool.true_and, Bool.or_false, okAfter_append,
          Bool.and_eq_true, List.any_nil, Bool.and_true]
        simp only [List.append_eq, List.nil_append, okAfter_append, Bool.and_eq_true]
        exact ⟨hq _, okAfter_makeSafe c _⟩
      · simp only [List.cons_append, List.nil_append, okAfter, msgTo, recvFrom, hcc,
          Bool.not_false, Bool.true_or, Bool.true_and, Bool.or_false]
        exact hq _

theorem runStep_accept {σ : Type} (D : Driver σ) (s : WorkerState σ)
    (inp : StepInput) (c : ℕ) (hn : inp.newConn = some c) :
    ∃ tail, (runStep D s inp).1 =
        .accept c :: .sendStatus c (D.status s.driver) :: tail ∧
      ∀ seen, okAfter c seen tail = true := by
  unfold runStep
  simp only [hn]
  rcases hp : processSockets D s.driver (alistSet s.connections c [])
      inp.chunks (inp.readable ++ [c]) with
    evs | ⟨evs, e⟩ | ⟨evs, conns2, drv2, dead⟩
  all_goals have hq := proc_okAfter D inp.chunks c (inp.readable ++ [c]) s.driver (alistSet s.connections c [])
  all_goals rw [hp] at hq
  all_goals simp only [ProcResult.events] at hq
  all_goals simp only [hp]
  · exact ⟨evs, by simp, fun seen => hq seen⟩
  · exact ⟨evs, by simp, fun seen => hq seen⟩
  · split
    · refine ⟨evs ++ [.makeSafe], by simp, fun seen => ?_⟩
      simp only [okAfter_append, Bool.and_eq_true]
      exact ⟨hq seen, okAfter_makeSafe c _⟩
    · exact ⟨evs, by simp, fun seen => hq seen⟩

theorem runTrace_okAfter {σ : Type} (D : Driver σ) (c : ℕ) :
    ∀ (inputs : List StepInput) (s : WorkerState σ) (seen : Bool),
      (∀ i ∈ inputs, i.newConn ≠ some c) →
      okAfter c seen (runTrace D s inputs) = true := by
  intro inputs
  induction inputs with
  | nil =>
    intro s seen _
    simp [runTrace, okAfter]
  | cons inp rest ih =>
    intro s seen hni
    have hstep := runStep_okAfter D s inp c (hni inp (List.mem_cons_self _ _)) seen
    rw [runTrace]
    rcases hr : runStep D s inp with ⟨evs, out⟩
    rw [hr] at hstep
    cases out with
    | ok s' =>
      simp only [okAfter_append, Bool.and_eq_true]
      exact ⟨hstep, ih s' _ (fun i hi => hni i (List.mem_cons_of_mem _ hi))⟩
    | stuck => exact hstep
    | crash e => exact hstep

/-! ## Claims -/

/-- C1: after the last client disconnects — the connection map becomes
empty as a result of removing dead sockets — `driver.make_safe()` is
invoked before any new client is accepted and served: `make_safe` is the
final event of the emptying iteration, so every event of every later
iteration (in particular any `accept` and the serving that follows it)
comes after it in the worker's trace.  Re-entry is harmless since the loop
may call `make_safe` again on a later emptying transition. -/
theorem C1_make_safe_before_new_clients {σ : Type} (D : Driver σ)
    (s : WorkerState σ) (inp : StepInput) (rest : List StepInput)
    (evs : List Event) (s' : WorkerState σ)
    (hstep : runStep D s inp = (evs, .ok s'))
    (hne : s.connections ≠ [] ∨ (inp.newConn).isSome = true)
    (hempty : s'.connections = []) :
    ∃ evs₀, evs = evs₀ ++ [Event.makeSafe] ∧
      runTrace D s (inp :: rest) =
        evs₀ ++ Event.makeSafe :: runTrace D s' rest := by
  have htr : runTrace D s (inp :: rest) = evs ++ runTrace D s' rest := by
    rw [runTrace, hstep]
  suffices hsuf : ∃ evs₀, evs = evs₀ ++ [Event.makeSafe] by
    obtain ⟨evs₀, he⟩ := hsuf
    refine ⟨evs₀, he, ?_⟩
    rw [htr, he, List.append_assoc, List.singleton_append]
  unfold runStep at hstep
  rcases hn : inp.newConn with _ | c
  all_goals simp only [hn] at hstep hne
  · rcases hp : processSockets D s.driver s.connections inp.chunks inp.readable with
      evs1 | ⟨evs1, e1⟩ | ⟨evs1, conns2, drv2, dead⟩
    all_goals simp only [hp] at hstep
    · rw [Prod.mk.injEq] at hstep
      cases hstep.2
    · rw [Prod.mk.injEq] at hstep
      cases hstep.2
    · have hlen := proc_length D inp.chunks inp.readable s.driver s.connections
        evs1 conns2 drv2 dead hp
      split at hstep
      · rw [Prod.mk.injEq] at hstep
        exact ⟨evs1, by rw [← hstep.1]; simp⟩
      · rename_i hcond
        rw [Prod.mk.injEq] at hstep
        obtain ⟨_, hout⟩ := hstep
        injection hout with hs
        rw [← hs] at hempty
        simp only at hempty
        exfalso
        rw [hempty] at hcond
        simp only [List.isEmpty_nil, Bool.and_true] at hcond
        have hdnil : dead ++ inp.errorable = [] := by
          rcases hq : (dead ++ inp.errorable).isEmpty with _ | _
          · rw [hq] at hcond; simp at hcond
          · exact List.isEmpty_iff.mp hq
        rw [hdnil, closeDeadSockets_nil] at hempty
        rw [hempty] at hlen
        rcases hne with hne | hne
        · rcases hc : s.connections with _ | ⟨kv, cs⟩
          · exact hne hc
          · rw [hc] at hlen
            simp at hlen
        · simp at hne
  · rcases hp : processSockets D s.driver (alistSet s.connections c [])
        inp.chunks (inp.readable ++ [c]) with
      evs1 | ⟨evs1, e1⟩ | ⟨evs1, conns2, drv2, dead⟩
    all_goals simp only [hp] at hstep
    · rw [Prod.mk.injEq] at hstep
      cases hstep.2
    · rw [Prod.mk.injEq] at hstep
      cases hstep.2
    · have hlen := proc_length D inp.chunks (inp.readable ++ [c]) s.driver
        (alistSet s.connections c []) evs1 conns2 drv2 dead hp
      split at hstep
      · rw [Prod.mk.injEq] at hstep
        exact ⟨[Event.accept c, Event.sendStatus c (D.status s.driver)] ++ evs1,
          by rw [← hstep.1]⟩
      · rename_i hcond
        rw [Prod.mk.injEq] at hstep
        obtain ⟨_, hout⟩ := hstep
        injection hout with hs
        rw [← hs] at hempty
        simp only at hempty
        exfalso
        rw [hempty] at hcond
        simp only [List.isEmpty_nil, Bool.and_true] at hcond
        have hdnil : dead ++ inp.errorable = [] := by
          rcases hq : (dead ++ inp.errorable).isEmpty with _ | _
          · rw [hq] at hcond; simp at hcond
          · exact List.isEmpty_iff.mp hq
        rw [hdnil, closeDeadSockets_nil] at hempty
        rw [hempty] at hlen
        have := alistSet_length_pos s.connections c ([] : List Char)
        rw [← hlen] at this
        simp at this

/-- Witness for C1: a worker with one live client whose socket reaches EOF
in this round; the map empties and `make_safe` is the final event. -/
theorem C1_witness :
    ∃ evs₀, [Event.makeSafe] = evs₀ ++ [Event.makeSafe] ∧
      runTrace gameDriver ⟨[(3, [])], ([] : Fs)⟩
          [⟨none, [3], [], fun _ => [[]]⟩] =
        evs₀ ++ Event.makeSafe :: runTrace gameDriver ⟨[], ([] : Fs)⟩ [] :=
  C1_make_safe_before_new_clients gameDriver ⟨[(3, [])], ([] : Fs)⟩
    ⟨none, [3], [], fun _ => [[]]⟩ [] [Event.makeSafe] ⟨[], ([] : Fs)⟩
    rfl (Or.inl (by simp)) rfl

/-- C2: every accepted connection receives exactly one message — the
current `driver.status()`, framed and sent immediately after `accept` —
before any command it sends is processed.  In the trace, the accept and
that status frame are the very first events of the accepting iteration,
and (`okAfter`) every later message to that client is preceded by the
worker first receiving a frame from it. -/
theorem C2_initial_status_before_commands {σ : Type} (D : Driver σ)
    (s : WorkerState σ) (inp : StepInput) (rest : List StepInput) (c : ℕ)
    (hn : inp.newConn = some c)
    (hrest : ∀ i ∈ rest, i.newConn ≠ some c) :
    ∃ tail, runTrace D s (inp :: rest) =
        .accept c :: .sendStatus c (D.status s.driver) :: tail ∧
      okAfter c false tail = true := by
  obtain ⟨tail0, hevs, hok0⟩ := runStep_accept D s inp c hn
  rw [runTrace]
  rcases hr : runStep D s inp with ⟨evs, out⟩
  rw [hr] at hevs
  simp only at hevs
  cases out with
  | ok s' =>
    refine ⟨tail0 ++ runTrace D s' rest, ?_, ?_⟩
    · rw [hevs]
      simp
    · rw [okAfter_append]
      simp only [Bool.and_eq_true]
      exact ⟨hok0 false, runTrace_okAfter D c rest s' _ hrest⟩
  | stuck => exact ⟨tail0, by rw [hevs], hok0 false⟩
  | crash e => exact ⟨tail0, by rw [hevs], hok0 false⟩

/-- Witness for C2: an empty worker accepts client 1, which then closes. -/
theorem C2_witness :
    ∃ tail, runTrace gameDriver ⟨[], ([] : Fs)⟩
          [⟨some 1, [], [], fun _ => [[]]⟩] =
        .accept 1 :: .sendStatus 1 (gameDriver.status []) :: tail ∧
      okAfter 1 false tail = true :=
  C2_initial_status_before_commands gameDriver ⟨[], ([] : Fs)⟩
    ⟨some 1, [], [], fun _ => [[]]⟩ [] 1 rfl (by simp)

/-- Eliminate a successful `runStep`: the events are the accept greeting,
then the socket-loop events, then possibly the `make_safe` of an emptying
transition; the new map is the old one (plus the accepted client, with
buffers updated) minus the dead sockets. -/
theorem runStep_ok_elim {σ : Type} (D : Driver σ) (s : WorkerState σ)
    (inp : StepInput) (evs : List Event) (s' : WorkerState σ)
    (hstep : runStep D s inp = (evs, .ok s')) :
    ∃ acceptEvs conns1 readList evs1 conns2 drv2 dead tailEvs,
      (match inp.newConn with
       | none => acceptEvs = [] ∧ conns1 = s.connections ∧
           readList = inp.readable
       | some c =>
           acceptEvs = [Event.accept c, Event.sendStatus c (D.status s.driver)] ∧
           conns1 = alistSet s.connections c [] ∧
           readList = inp.readable ++ [c]) ∧
      processSockets D s.driver conns1 inp.chunks readList =
        .ok evs1 conns2 drv2 dead ∧
      evs = acceptEvs ++ evs1 ++ tailEvs ∧
      (tailEvs = [] ∨ tailEvs = [Event.makeSafe]) ∧
      s'.connections = closeDeadSockets conns2 (dead ++ inp.errorable) := by
  unfold runStep at hstep
  rcases hn : inp.newConn with _ | c
  all_goals simp only [hn] at hstep
  · rcases hp : processSockets D s.driver s.connections inp.chunks inp.readable with
      evs1 | ⟨evs1, e1⟩ | ⟨evs1, conns2, drv2, dead⟩
    all_goals simp only [hp] at hstep
    · rw [Prod.mk.injEq] at hstep
      cases hstep.2
    · rw [Prod.mk.injEq] at hstep
      cases hstep.2
    · split at hstep
      all_goals rw [Prod.mk.injEq] at hstep
      all_goals obtain ⟨hevs, hout⟩ := hstep
      all_goals injection hout with hs
      · exact ⟨[], s.connections, inp.readable, evs1, conns2, drv2, dead,
          [Event.makeSafe], ⟨rfl, rfl, rfl⟩, hp, by rw [← hevs], Or.inr rfl,
          by rw [← hs]⟩
      · exact ⟨[], s.connections, inp.readable, evs1, conns2, drv2, dead,
          [], ⟨rfl, rfl, rfl⟩, hp, by rw [← hevs]; simp, Or.inl rfl,
          by rw [← hs]⟩
  · rcases hp : processSockets D s.driver (alistSet s.connections c [])
        inp.chunks (inp.readable ++ [c]) with
      evs1 | ⟨evs1, e1⟩ | ⟨evs1, conns2, drv2, dead⟩
    all_goals simp only [hp] at hstep
    · rw [Prod.mk.injEq] at hstep
      cases hstep.2
    · rw [Prod.mk.injEq] at hstep
      cases hstep.2
    · split at hstep
      all_goals rw [Prod.mk.injEq] at hstep
      all_goals obtain ⟨hevs, hout⟩ := hstep
      all_goals injection hout with hs
      · exact ⟨[Event.accept c, Event.sendStatus c (D.status s.driver)],
          alistSet s.connections c [], inp.readable ++ [c], evs1, conns2, drv2,
          dead, [Event.makeSafe], ⟨rfl, rfl, rfl⟩, hp, by rw [← hevs],
          Or.inr rfl, by rw [← hs]⟩
      · exact ⟨[Event.accept c, Event.sendStatus c (D.status s.driver)],
          alistSet s.connections c [], inp.readable ++ [c], evs1, conns2, drv2,
          dead, [], ⟨rfl, rfl, rfl⟩, hp, by rw [← hevs]; simp, Or.inl rfl,
          by rw [← hs]⟩

/-- C3: a frame decoding to the empty object is a status ping: the worker
does not invoke `driver.command()` (no dispatch event) and sends exactly
one status frame and no response frame on that connection.  The events of
the iteration concerning socket `x` are exactly a receive of the empty
object followed by one status frame. -/
theorem C3_empty_command_status_ping {σ : Type} (D : Driver σ)
    (s : WorkerState σ) (inp : StepInput) (x : ℕ) (data d' : List Char)
    (evs : List Event) (s' : WorkerState σ)
    (hget : alistGet s.connections x = some data)
    (hnc : inp.newConn ≠ some x)
    (hcount : inp.readable.count x = 1)
    (hRecv : Connection.receive data (inp.chunks x) = .msg (.ok (Json.obj [])) d')
    (hstep : runStep D s inp = (evs, .ok s')) :
    ∃ drvX, evs.filter (tagIs x) =
      [Event.receive x (Json.obj []), Event.sendStatus x (D.status drvX)] := by
  obtain ⟨acceptEvs, conns1, readList, evs1, conns2, drv2, dead, tailEvs,
    hmatch, hp, hevs, htail, hconn⟩ := runStep_ok_elim D s inp evs s' hstep
  have htailfil : tailEvs.filter (tagIs x) = [] := by
    rcases htail with h | h
    · rw [h]
      rfl
    · rw [h]
      rfl
  rcases hn : inp.newConn with _ | c
  all_goals rw [hn] at hmatch
  · obtain ⟨ha, hc1, hrl⟩ := hmatch
    obtain ⟨drvX, bevs, drvX', hhx, hfil, _, _⟩ :=
      proc_handled D inp.chunks x data d' (Json.obj []) hRecv readList s.driver
        conns1 evs1 conns2 drv2 dead (by rw [hrl]; exact hcount)
        (by rw [hc1]; exact hget) hp
    have hping := handleSock_ping D drvX x data (inp.chunks x) d' hRecv
    rw [hping] at hhx
    injection hhx with hb _ _
    refine ⟨drvX, ?_⟩
    rw [hevs, ha, List.nil_append, List.filter_append, hfil, htailfil,
      List.append_nil, ← hb]
  · obtain ⟨ha, hc1, hrl⟩ := hmatch
    have hcx : c ≠ x := fun hq => hnc (by rw [hn, hq])
    have hxc : x ≠ c := fun hq => hcx hq.symm
    have hcxb : (c == x) = false := beq_eq_false_iff_ne.mpr hcx
    obtain ⟨drvX, bevs, drvX', hhx, hfil, _, _⟩ :=
      proc_handled D inp.chunks x data d' (Json.obj []) hRecv readList s.driver
        conns1 evs1 conns2 drv2 dead
        (by rw [hrl, List.count_append]
            have h0 : List.count x [c] = 0 := by
              rw [List.count_eq_zero]
              simp [hxc]
            rw [h0, Nat.add_zero]
            exact hcount)
        (by rw [hc1, alistGet_set_ne s.connections c x [] hcx]; exact hget) hp
    have hping := handleSock_ping D drvX x data (inp.chunks x) d' hRecv
    rw [hping] at hhx
    injection hhx with hb _ _
    have h1 : tagIs x (Event.accept c) = false := by
      rw [show tagIs x (Event.accept c) = (c == x) from rfl, hcxb]
    have h2 : tagIs x (Event.sendStatus c (D.status s.driver)) = false := by
      rw [show tagIs x (Event.sendStatus c (D.status s.driver)) = (c == x) from rfl,
        hcxb]
    refine ⟨drvX, ?_⟩
    rw [hevs, ha, List.filter_append, List.filter_append, hfil, htailfil,
      List.append_nil, ← hb]
    simp [List.filter_cons, h1, h2]

/-- Witness for C3: one client whose buffer already holds an empty-object
frame; the round emits exactly a receive and one status frame for it. -/
theorem C3_witness :
    ∃ drvX, List.filter (tagIs 2)
        [Event.receive 2 (Json.obj []),
         Event.sendStatus 2 (gameDriver.status ([] : Fs))] =
      [Event.receive 2 (Json.obj []), Event.sendStatus 2 (gameDriver.status drvX)] :=
  C3_empty_command_status_ping gameDriver
    ⟨[(2, "\x7b\x7d\n".data)], ([] : Fs)⟩ ⟨none, [2], [], fun _ => []⟩ 2
    "\x7b\x7d\n".data [] _ ⟨[(2, [])], ([] : Fs)⟩ rfl (by simp) rfl rfl rfl

/-- Counterexample to C6 as stated: a client sends the malformed frame
`notjson` followed by a newline.  The worker does not continue serving: the
decode error propagates (there is no handler in `run`) and the iteration
ends in a crash, with no event emitted — nothing is logged and every
client's connection dies with the worker process. -/
theorem C6_cx_malformed_json_crashes :
    runStep gameDriver ⟨[(5, [])], ([] : Fs)⟩
        ⟨none, [5], [], fun _ => ["notjson\n".data]⟩ =
      ([], .crash .jsonDecode) ∧
    ¬∃ evs s', runStep gameDriver ⟨[(5, [])], ([] : Fs)⟩
        ⟨none, [5], [], fun _ => ["notjson\n".data]⟩ = (evs, .ok s') := by
  refine ⟨rfl, ?_⟩
  rintro ⟨evs, s', h⟩
  have h2 := congrArg Prod.snd h
  have h3 : (StepOutcome.crash PyErr.jsonDecode : StepOutcome Fs) =
      StepOutcome.ok s' := h2
  cases h3

/-- C6 amended: a frame that is not well-formed JSON makes `json.loads`
raise inside `Connection.receive`; the exception propagates out of the
worker loop (which has no handler), terminating the worker.  Nothing is
dispatched to the driver for that frame and no event is emitted. -/
theorem C6_malformed_json_kills_worker {σ : Type} (D : Driver σ)
    (s : WorkerState σ) (inp : StepInput) (x : ℕ) (rest0 : List ℕ)
    (data d' : List Char)
    (hn : inp.newConn = none)
    (hread : inp.readable = x :: rest0)
    (hget : alistGet s.connections x = some data)
    (hRecv : Connection.receive data (inp.chunks x) = .msg (.error ()) d') :
    runStep D s inp = ([], .crash .jsonDecode) := by
  have hh : handleSock D s.driver x data (inp.chunks x) = .crash [] .jsonDecode := by
    unfold handleSock
    rw [hRecv]
  unfold runStep
  simp only [hn, hread]
  rw [processSockets]
  simp only [hget, hh]
  rfl

/-- Witness for C6 amended. -/
theorem C6_witness :
    runStep gameDriver ⟨[(6, "notjson\n".data)], ([] : Fs)⟩
        ⟨none, [6], [], fun _ => []⟩ = ([], .crash .jsonDecode) :=
  C6_malformed_json_kills_worker gameDriver
    ⟨[(6, "notjson\n".data)], ([] : Fs)⟩ ⟨none, [6], [], fun _ => []⟩ 6 []
    "notjson\n".data [] rfl rfl rfl rfl

theorem takeWhile_until_newline (l r : List Char) (hnl : '\n' ∉ l) :
    (l ++ '\n' :: r).takeWhile (· ≠ '\n') = l := by
  induction l with
  | nil => simp [List.takeWhile_cons]
  | cons c t ih =>
    have hc : c ≠ '\n' := fun hq => hnl (hq ▸ List.mem_cons_self c t)
    have ht : '\n' ∉ t := fun hq => hnl (List.mem_cons_of_mem _ hq)
    simp [List.takeWhile_cons, hc]
    simpa using ih ht

theorem dropWhile_until_newline (l r : List Char) (hnl : '\n' ∉ l) :
    (l ++ '\n' :: r).dropWhile (· ≠ '\n') = '\n' :: r := by
  induction l with
  | nil => simp [List.dropWhile_cons]
  | cons c t ih =>
    have hc : c ≠ '\n' := fun hq => hnl (hq ▸ List.mem_cons_self c t)
    have ht : '\n' ∉ t := fun hq => hnl (List.mem_cons_of_mem _ hq)
    simp [List.dropWhile_cons, hc]
    simpa using ih ht

/-- A buffer that already holds a complete line is split without any
`recv`: the first line is decoded and everything after its newline —
including any further complete frames — remains buffered. -/
theorem receive_buffered (l r : List Char) (chunks : List (List Char))
    (hnl : '\n' ∉ l) :
    Connection.receive (l ++ '\n' :: r) chunks = .msg (pyLoads l) r := by
  have hmem : '\n' ∈ l ++ '\n' :: r := by simp
  have hsplit : Connection.splitFrame (l ++ '\n' :: r) = .msg (pyLoads l) r := by
    rw [Connection.splitFrame, takeWhile_until_newline l r hnl,
      dropWhile_until_newline l r hnl, List.tail_cons]
  unfold Connection.receive
  cases chunks with
  | nil => rw [Connection.receiveLoop, if_pos hmem, hsplit]
  | cons c cs => rw [Connection.receiveLoop, if_pos hmem, hsplit]

theorem filter_recvFrom_of_tag (x : ℕ) (l : List Event) :
    (l.filter (tagIs x)).filter (recvFrom x) = l.filter (recvFrom x) := by
  induction l with
  | nil => rfl
  | cons e t ih =>
    cases he : tagIs x e
    · have hrf : recvFrom x e = false := by
        cases e with
        | receive k cmd => exact he
        | accept k => rfl
        | sendStatus k m => rfl
        | sendResponse k m => rfl
        | dispatch k cmd => rfl
        | makeSafe => rfl
      simp [List.filter_cons, he, hrf, ih]
    · cases hrf : recvFrom x e <;> simp [List.filter_cons, he, hrf, ih]

theorem filter_recvFrom_handled {σ : Type} (D : Driver σ) (drv : σ) (x : ℕ)
    (data : List Char) (chunks : List (List Char)) (cmd : Json) (d' : List Char)
    (bevs : List Event) (drv2 : σ)
    (hRecv : Connection.receive data chunks = .msg (.ok cmd) d')
    (hh : handleSock D drv x data chunks = .handled bevs d' drv2) :
    bevs.filter (recvFrom x) = [Event.receive x cmd] := by
  rcases handleSock_of_recv_ok D drv x data chunks cmd d' hRecv with
    ⟨bevs2, drv2b, hh2, hfil2⟩ | ⟨bevs2, e2, hh2⟩
  · rw [hh] at hh2
    injection hh2 with hb _ _
    rw [hb]
    exact hfil2
  · rw [hh] at hh2
    cases hh2

/-- Counterexample to C5 as stated: one `recv` returns two complete frames
and trailing bytes.  Only the first frame is handled in this readiness
round; the second complete frame does NOT get dispatched and stays in the
buffer together with the trailing bytes (the claim says only the trailing
incomplete bytes remain). -/
theorem C5_cx_second_frame_stays_buffered :
    runStep gameDriver ⟨[(7, [])], ([] : Fs)⟩
        ⟨none, [7], [], fun _ => ["\x7b\x7d\n\x7b\"a\": 1\x7d\ntra".data]⟩ =
      ([Event.receive 7 (Json.obj []),
        Event.sendStatus 7 (GameState.status ([] : Fs))],
       .ok ⟨[(7, "\x7b\"a\": 1\x7d\ntra".data)], ([] : Fs)⟩) ∧
    "\x7b\"a\": 1\x7d\ntra".data ≠ "tra".data := by
  exact ⟨rfl, by decide⟩

/-- C5 amended: when the read buffer holds several complete frames, one
readiness round consumes exactly the FIRST line: that frame alone is
received (and handled), and everything after its newline — the remaining
complete frames and the trailing incomplete bytes — stays in the
connection's buffer for later rounds, which dispatch the remaining frames
in order as the socket becomes readable again. -/
theorem C5_one_frame_per_round {σ : Type} (D : Driver σ)
    (s : WorkerState σ) (inp : StepInput) (x : ℕ) (l r : List Char)
    (cmd : Json) (evs : List Event) (s' : WorkerState σ)
    (hbuf : alistGet s.connections x = some (l ++ '\n' :: r))
    (hnl : '\n' ∉ l)
    (hcmd : pyLoads l = .ok cmd)
    (hnc : inp.newConn ≠ some x)
    (hcount : inp.readable.count x = 1)
    (herr : x ∉ inp.errorable)
    (hstep : runStep D s inp = (evs, .ok s')) :
    alistGet s'.connections x = some r ∧
      evs.filter (recvFrom x) = [Event.receive x cmd] := by
  have hRecv : Connection.receive (l ++ '\n' :: r) (inp.chunks x) =
      .msg (.ok cmd) r := by
    rw [receive_buffered l r (inp.chunks x) hnl, hcmd]
  obtain ⟨acceptEvs, conns1, readList, evs1, conns2, drv2, dead, tailEvs,
    hmatch, hp, hevs, htail, hconn⟩ := runStep_ok_elim D s inp evs s' hstep
  have htailfil : tailEvs.filter (recvFrom x) = [] := by
    rcases htail with h | h
    · rw [h]
      rfl
    · rw [h]
      rfl
  have hmain : ∀ (hc1get : alistGet conns1 x = some (l ++ '\n' :: r))
      (hcnt : readList.count x = 1)
      (hafil : acceptEvs.filter (recvFrom x) = []),
      alistGet s'.connections x = some r ∧
        evs.filter (recvFrom x) = [Event.receive x cmd] := by
    intro hc1get hcnt hafil
    obtain ⟨drvX, bevs, drvX', hhx, hfil, hget2, hdeadx⟩ :=
      proc_handled D inp.chunks x (l ++ '\n' :: r) r cmd hRecv readList
        s.driver conns1 evs1 conns2 drv2 dead hcnt hc1get hp
    constructor
    · rw [hconn, closeDeadSockets_get_notmem conns2 (dead ++ inp.errorable) x
        (by rw [List.mem_append]; rintro (hq | hq); exacts [hdeadx hq, herr hq])]
      exact hget2
    · have h1 : evs1.filter (recvFrom x) = [Event.receive x cmd] := by
        rw [← filter_recvFrom_of_tag x evs1, hfil]
        exact filter_recvFrom_handled D drvX x (l ++ '\n' :: r) (inp.chunks x)
          cmd r bevs drvX' hRecv hhx
      rw [hevs, List.filter_append, List.filter_append, hafil, h1, htailfil,
        List.nil_append, List.append_nil]
  rcases hn : inp.newConn with _ | c
  all_goals rw [hn] at hmatch
  · obtain ⟨ha, hc1, hrl⟩ := hmatch
    exact hmain (by rw [hc1]; exact hbuf) (by rw [hrl]; exact hcount)
      (by rw [ha]; rfl)
  · obtain ⟨ha, hc1, hrl⟩ := hmatch
    have hcx : c ≠ x := fun hq => hnc (by rw [hn, hq])
    have hxc : x ≠ c := fun hq => hcx hq.symm
    refine hmain (by rw [hc1, alistGet_set_ne s.connections c x [] hcx]; exact hbuf)
      ?_ (by rw [ha]; rfl)
    rw [hrl, List.count_append]
    have h0 : List.count x [c] = 0 := by
      rw [List.count_eq_zero]
      simp [hxc]
    rw [h0, Nat.add_zero]
    exact hcount

/-- Witness for C5 amended: the buffer holds two complete frames plus
trailing bytes; exactly the first frame is received and the rest stays. -/
theorem C5_witness :
    alistGet (⟨[(7, "\x7b\"a\": 1\x7d\ntra".data)], ([] : Fs)⟩ :
        WorkerState Fs).connections 7 = some "\x7b\"a\": 1\x7d\ntra".data ∧
      List.filter (recvFrom 7)
          [Event.receive 7 (Json.obj []),
           Event.sendStatus 7 (GameState.status ([] : Fs))] =
        [Event.receive 7 (Json.obj [])] :=
  C5_one_frame_per_round gameDriver ⟨[(7, "\x7b\x7d\n\x7b\"a\": 1\x7d\ntra".data)], ([] : Fs)⟩
    ⟨none, [7], [], fun _ => []⟩ 7 "\x7b\x7d".data "\x7b\"a\": 1\x7d\ntra".data
    (Json.obj []) _ ⟨[(7, "\x7b\"a\": 1\x7d\ntra".data)], ([] : Fs)⟩
    rfl (by decide) rfl (by simp) rfl (by simp) rfl

theorem matchZoneAt_head_ne (a : Char) (l : List Char) (ha : ¬ a = 'z') :
    matchZoneAt (a :: l) = none := by
  unfold matchZoneAt
  split
  · rename_i heq
    injection heq with h1 _
    rw [← h1]
    exact if_neg (fun hq => ha hq.1)
  · rfl

theorem matchZoneAt_second_ne (a b : Char) (l : List Char) (hb : ¬ b = 'o') :
    matchZoneAt (a :: b :: l) = none := by
  unfold matchZoneAt
  split
  · rename_i heq
    injection heq with _ heq2
    injection heq2 with h2 _
    rw [← h2]
    exact if_neg (fun hq => hb hq.2.1)
  · rfl

/-- A path accepted by the glob has exactly the shape
`/media/usb<c1>/zone-<c2>` with `c1`, `c2` single non-separator chars. -/
theorem glob_shape (p : List Char) (h : globMatchZone p = true) :
    ∃ c1 c2, c1 ≠ '/' ∧ c2 ≠ '/' ∧
      p = ['/', 'm', 'e', 'd', 'i', 'a', '/', 'u', 's', 'b', c1,
           '/', 'z', 'o', 'n', 'e', '-', c2] := by
  unfold globMatchZone at h
  split at h
  · rename_i a0 a1 a2 a3 a4 a5 a6 a7 a8 a9 c1 a11 a12 a13 a14 a15 a16 c2
    simp only [Bool.and_eq_true, beq_iff_eq, bne_iff_ne] at h
    obtain ⟨⟨⟨⟨⟨⟨⟨⟨⟨⟨⟨⟨⟨⟨⟨⟨⟨rfl, rfl⟩, rfl⟩, rfl⟩, rfl⟩, rfl⟩, rfl⟩, rfl⟩,
      rfl⟩, rfl⟩, h1⟩, rfl⟩, rfl⟩, rfl⟩, rfl⟩, rfl⟩, rfl⟩, h2⟩ := h
    exact ⟨c1, c2, h1, h2, rfl⟩
  · cases h

theorem lastComponent_glob (c1 c2 : Char) (hc2 : c2 ≠ '/') :
    lastComponent ['/', 'm', 'e', 'd', 'i', 'a', '/', 'u', 's', 'b', c1,
       '/', 'z', 'o', 'n', 'e', '-', c2] = ['z', 'o', 'n', 'e', '-', c2] := by
  unfold lastComponent
  rw [show (['/', 'm', 'e', 'd', 'i', 'a', '/', 'u', 's', 'b', c1,
        '/', 'z', 'o', 'n', 'e', '-', c2] : List Char).reverse =
      c2 :: ['-', 'e', 'n', 'o', 'z', '/', c1, 'b', 's', 'u', '/', 'a',
             'i', 'd', 'e', 'm', '/'] from rfl]
  rw [List.takeWhile_cons]
  simp [hc2]

/-- On a glob-shaped path, `re.search('zone-(\\d)', path)` can only match
inside the final component (the earlier fixed characters cannot begin
`zone-`), so searching the whole path equals searching the file name. -/
theorem zoneSearch_full_eq_last (p : List Char) (h : globMatchZone p = true) :
    zoneSearch p = zoneSearch (lastComponent p) := by
  obtain ⟨c1, c2, hc1, hc2, hp⟩ := glob_shape p h
  subst hp
  rw [lastComponent_glob c1 c2 hc2]
  rw [zoneSearch, matchZoneAt_head_ne _ _ (by decide)]
  rw [zoneSearch, matchZoneAt_head_ne _ _ (by decide)]
  rw [zoneSearch, matchZoneAt_head_ne _ _ (by decide)]
  rw [zoneSearch, matchZoneAt_head_ne _ _ (by decide)]
  rw [zoneSearch, matchZoneAt_head_ne _ _ (by decide)]
  rw [zoneSearch, matchZoneAt_head_ne _ _ (by decide)]
  rw [zoneSearch, matchZoneAt_head_ne _ _ (by decide)]
  rw [zoneSearch, matchZoneAt_head_ne _ _ (by decide)]
  rw [zoneSearch, matchZoneAt_head_ne _ _ (by decide)]
  rw [zoneSearch, matchZoneAt_head_ne _ _ (by decide)]
  rw [zoneSearch, matchZoneAt_second_ne _ _ _ (by decide)]
  rw [zoneSearch, matchZoneAt_head_ne _ _ (by decide)]

theorem findZoneLoop_isSome_iff (fs : Fs) (l : List (List Char)) :
    (findZoneLoop fs l).isSome = true ↔
      ∃ p ∈ l, (zoneSearch p).isSome = true ∧ siblingMainPy p ∉ fs := by
  induction l with
  | nil => simp [findZoneLoop]
  | cons c rest ih =>
    rw [findZoneLoop]
    rcases hz : zoneSearch c with _ | n
    · simp only [ih]
      constructor
      · rintro ⟨p, hp, h⟩
        exact ⟨p, List.mem_cons_of_mem _ hp, h⟩
      · rintro ⟨p, hp, h⟩
        rcases List.mem_cons.mp hp with rfl | hp2
        · rw [hz] at h
          cases h.1
        · exact ⟨p, hp2, h⟩
    · simp only [hz]
      by_cases hs : siblingMainPy c ∈ fs
      · rw [if_pos hs, ih]
        constructor
        · rintro ⟨p, hp, h⟩
          exact ⟨p, List.mem_cons_of_mem _ hp, h⟩
        · rintro ⟨p, hp, h⟩
          rcases List.mem_cons.mp hp with rfl | hp2
          · exact absurd hs h.2
          · exact ⟨p, hp2, h⟩
      · rw [if_neg hs]
        constructor
        · intro _
          exact ⟨c, List.mem_cons_self _ _, by rw [hz]; rfl, hs⟩
        · intro _
          rfl

/-- C8: the game board reports competition mode exactly when some existing
path matches the glob `/media/usb?/zone-?`, its final component matches
`zone-(\\d)`, and no sibling `main.py` exists; otherwise it reports
`zone 0, development`. -/
theorem C8_game_status_competition_iff (fs : Fs) :
    ((∃ n : ℕ, GameState.status fs =
        Json.obj [("zone", Json.num (n : ℚ)), ("mode", Json.str "competition")]) ↔
      ∃ p ∈ fs, globMatchZone p = true ∧
        (zoneSearch (lastComponent p)).isSome = true ∧
        pathJoin (dirname p) "main.py".data ∉ fs) ∧
    (¬(∃ p ∈ fs, globMatchZone p = true ∧
        (zoneSearch (lastComponent p)).isSome = true ∧
        pathJoin (dirname p) "main.py".data ∉ fs) →
      GameState.status fs =
        Json.obj [("zone", Json.num 0), ("mode", Json.str "development")]) := by
  have hcore : (GameState.find_zone fs).isSome = true ↔
      ∃ p ∈ fs, globMatchZone p = true ∧
        (zoneSearch (lastComponent p)).isSome = true ∧
        pathJoin (dirname p) "main.py".data ∉ fs := by
    unfold GameState.find_zone
    rw [findZoneLoop_isSome_iff]
    constructor
    · rintro ⟨p, hp, hz, hs⟩
      rw [List.mem_filter] at hp
      refine ⟨p, hp.1, hp.2, ?_, hs⟩
      rw [← zoneSearch_full_eq_last p hp.2]
      exact hz
    · rintro ⟨p, hp, hg, hz, hs⟩
      refine ⟨p, List.mem_filter.mpr ⟨hp, hg⟩, ?_, hs⟩
      rw [zoneSearch_full_eq_last p hg]
      exact hz
  have hstat : (∃ n : ℕ, GameState.status fs =
      Json.obj [("zone", Json.num (n : ℚ)), ("mode", Json.str "competition")]) ↔
      (GameState.find_zone fs).isSome = true := by
    constructor
    · rintro ⟨n, hn⟩
      rcases hf : GameState.find_zone fs with _ | m
      · unfold GameState.status at hn
        rw [hf] at hn
        injection hn with hfields
        injection hfields with hpair hrest
        injection hrest with hpair2 _
        injection hpair2 with _ hmode
        injection hmode with hstr
        exact absurd hstr (by decide)
      · rfl
    · intro hsome
      rcases hf : GameState.find_zone fs with _ | m
      · rw [hf] at hsome
        cases hsome
      · exact ⟨m, by unfold GameState.status; rw [hf]⟩
  refine ⟨hstat.trans hcore, fun hnot => ?_⟩
  rcases hf : GameState.find_zone fs with _ | m
  · unfold GameState.status
    rw [hf]
  · exfalso
    apply hnot
    rw [← hcore, hf]
    rfl

/-- Witness for C8: the single existing path `/media/usb0/zone-2` with no
sibling `main.py` puts the game in competition mode. -/
theorem C8_witness :
    ∃ n : ℕ, GameState.status ["/media/usb0/zone-2".data] =
      Json.obj [("zone", Json.num (n : ℚ)), ("mode", Json.str "competition")] :=
  (C8_game_status_competition_iff ["/media/usb0/zone-2".data]).1.mpr
    ⟨"/media/usb0/zone-2".data, by decide, by decide, by decide, by decide⟩

/-- C4 is violated by the code: when a send during `broadcast` raises
`ConnectionRefusedError`, the handler line
`self.connections.remove(connection)` itself raises `AttributeError`
(dicts have no `remove`), so the failing connection is NOT removed and an
exception DOES escape `broadcast`.  Evaluated at two connections whose
second send is refused: the first received the message with
`broadcast: true` added, then `AttributeError` escaped. -/
theorem C4_broadcast_send_failure_raises :
    BoardRunner.broadcast [(1, []), (2, [])]
        (fun k => if k = 2 then .connectionRefused else .ok)
        [("x", Json.num 1)] =
      ⟨[(1, Json.obj [("x", Json.num 1), ("broadcast", Json.bool true)])],
        some PyErr.attributeError⟩ ∧
    some PyErr.attributeError ≠ (none : Option PyErr) :=
  ⟨rfl, by decide⟩

/-- C7 is violated by the code: `GameState` never overrides `command`, so
the inherited `Board.command` is `pass` — a non-empty mapping sent as a
command is NOT stored; the state (and hence `status()`) is unchanged, on
an empty store and on a non-empty one alike. -/
theorem C7_game_command_ignores_input :
    GameState.command ([] : Fs) (Json.obj [("foo", Json.num 1)]) =
      (([] : Fs), none) ∧
    GameState.command ["/media/usb0/zone-2".data]
        (Json.obj [("foo", Json.num 1)]) =
      (["/media/usb0/zone-2".data], none) :=
  ⟨rfl, rfl⟩

/-- Counterexample to C9 as stated: the derivation strips the trailing
`Board` BEFORE snake-casing, so `MotorBoard` yields `motor`, not
`motor_board`. -/
theorem C9_cx_motor_type_id :
    board_type_id none "MotorBoard" = "motor" ∧ "motor" ≠ "motor_board" := by
  refine ⟨?_, by decide⟩
  decide

/-- C9 amended: `board_type_id` strips a trailing `Board` and snake-cases
what is left (an explicit `board_type_id` class attribute wins), so the
motor board's id is `motor`, the power board's `power`, the servo
assembly's `servo_assembly`, and the socket paths use those ids. -/
theorem C9_board_type_id_values :
    board_type_id none "MotorBoard" = "motor" ∧
    board_type_id none "PowerBoard" = "power" ∧
    board_type_id none "ServoAssembly" = "servo_assembly" ∧
    board_type_id none "BrainTemperatureSensor" = "brain_temperature_sensor" ∧
    board_type_id none "Camera" = "camera" ∧
    board_type_id (some "game") "GameState" = "game" ∧
    socketPath "/var/robotd" (board_type_id none "MotorBoard") "A12" =
      "/var/robotd/motor/A12" ∧
    socketPath "/var/robotd" (board_type_id none "PowerBoard") "P1" =
      "/var/robotd/power/P1" := by
  refine ⟨?_, ?_, ?_, ?_, ?_, rfl, ?_, ?_⟩
  all_goals decide

/-- Counterexample to C10 as stated: for the non-numeric invalid speed
`"stop"`, the comparison `-1 <= value` raises `TypeError`, not
`ValueError` — though the status has indeed already been updated. -/
theorem C10_cx_typeerror_not_valueerror :
    MotorBoard.command [("m0", Json.str "brake"), ("m1", Json.str "brake")]
        (Json.obj [("m0", Json.str "stop")]) =
      ⟨[("m0", Json.str "stop"), ("m1", Json.str "brake")],
        .error .typeError⟩ ∧
    PyErr.typeError ≠ PyErr.valueError :=
  ⟨rfl, by decide⟩

/-- C10 amended: `MotorBoard.command` is not atomic on error —
`self._status.update(cmd)` runs before the speed bytes are computed, so
when either channel's value makes `byte_for_speed` raise (`ValueError`
for an out-of-range number, `TypeError` for any other non-keyword value),
the stored status has already been updated with the invalid value and
`status()` reports it after the error. -/
theorem C10_motor_command_not_atomic (st : PyDict)
    (fields : List (String × Json)) (e : PyErr)
    (h : (∃ v0, alistGet (dictUpdate st fields) "m0" = some v0 ∧
            MotorBoard.byte_for_speed v0 = .error e) ∨
         (∃ v0 b0 v1, alistGet (dictUpdate st fields) "m0" = some v0 ∧
            MotorBoard.byte_for_speed v0 = .ok b0 ∧
            alistGet (dictUpdate st fields) "m1" = some v1 ∧
            MotorBoard.byte_for_speed v1 = .error e)) :
    MotorBoard.command st (.obj fields) = ⟨dictUpdate st fields, .error e⟩ := by
  unfold MotorBoard.command
  rcases h with ⟨v0, hget, hbfs⟩ | ⟨v0, b0, v1, hget0, hbfs0, hget1, hbfs1⟩
  · simp only [hget, hbfs]
  · simp only [hget0, hbfs0, hget1, hbfs1]

/-- Witness for C10 amended: commanding `m0 = 5` updates the status first
and then fails with `ValueError`; the invalid 5 stays in the status. -/
theorem C10_witness :
    MotorBoard.command [("m0", Json.str "brake"), ("m1", Json.str "brake")]
        (Json.obj [("m0", Json.num 5)]) =
      ⟨[("m0", Json.num 5), ("m1", Json.str "brake")], .error .valueError⟩ :=
  C10_motor_command_not_atomic
    [("m0", Json.str "brake"), ("m1", Json.str "brake")]
    [("m0", Json.num 5)] .valueError
    (Or.inl ⟨Json.num 5, rfl, rfl⟩)

end Robotd
